import Mathlib

/-!
Verification of the newsletter processing pipeline of the
`ai-newsletter-translated` repository, as a shallow embedding in Lean 4.

The embedding follows the TypeScript source:
* `src/scraper.ts` — article selection (`getMostInterestingArticle`) and
  single-source scraping (`scrapeSource`);
* `src/engine/translate.ts` — `translateArticle` / `translateArticles`;
* `src/engine/generateEmailContent.ts` — `sendEmail` / `sendEmails`;
* `src/db/newsletter/getUsersGroupedByLanguageAndCountry.ts` — subscriber
  grouping;
* the orchestrator `processNewsletter` / `processUserGroup`.

Asynchronous I/O (page fetches, LLM calls, SMTP sends) is modelled by
environments of `Except`-valued oracles: a `.error` value stands for a
rejected promise (a thrown exception), an `.ok` value for a fulfilled one.
JavaScript runtime behaviours that the code relies on (string `replaceAll`,
array indexing by a string key, `String.prototype.trim`, WHATWG URL
resolution) are modelled by explicit executable definitions.
-/

namespace NewsPipeline

/-! ## JavaScript string primitives -/

/-- The backtick character, written by code point to keep it out of the
source text of this file. -/
def btChar : Char := Char.ofNat 96

/-- Boolean prefix test on character lists (model of a JS
`String.prototype.startsWith` check, and the matching step of
`replaceAll`). -/
def isPrefixL : List Char → List Char → Bool
  | [], _ => true
  | _ :: _, [] => false
  | a :: as, b :: bs => if a = b then isPrefixL as bs else false

/-- Fuel-indexed worker for `removeAll`: scans left to right; on a match of
the pattern `p` it deletes the occurrence and continues after it, exactly as
JS `s.replaceAll(p, "")` does.  The fuel only needs to dominate the length
of the input list. -/
def removeAllFuel (p : List Char) : Nat → List Char → List Char
  | _, [] => []
  | 0, l => l
  | n + 1, c :: cs =>
    if isPrefixL p (c :: cs) then removeAllFuel p n (cs.drop (p.length - 1))
    else c :: removeAllFuel p n cs

/-- Model of JS `s.replaceAll(p, "")` on character lists. -/
def removeAll (p s : List Char) : List Char := removeAllFuel p s.length s

/-- Substring occurrence test on character lists. -/
def containsSub (p : List Char) : List Char → Bool
  | [] => decide (p = [])
  | c :: cs => isPrefixL p (c :: cs) || containsSub p cs

/-- The three-backtick fence marker. -/
def fenceMarks : List Char := [btChar, btChar, btChar]

/-- The three-backtick fence marker followed by `html`. -/
def fenceHtmlMarks : List Char := fenceMarks ++ ['h', 't', 'm', 'l']

/-- The translator's code-fence cleanup, from `translateArticle`
(src/engine/translate.ts): the translated content is post-processed with
`.replaceAll("<three backticks>html", "").replaceAll("<three backticks>", "")`. -/
def stripFences (s : String) : String :=
  ⟨removeAll fenceMarks (removeAll fenceHtmlMarks s.data)⟩

/-! ### Lemmas about `removeAll` -/

theorem isPrefixL_nil (l : List Char) : isPrefixL [] l = true := by
  cases l <;> rfl

theorem isPrefixL_trans (p : List Char) :
    ∀ q l, isPrefixL p q = true → isPrefixL q l = true → isPrefixL p l = true := by
  induction p with
  | nil => intro q l _ _; exact isPrefixL_nil l
  | cons a as ih =>
    intro q l hpq hql
    cases q with
    | nil => simp [isPrefixL] at hpq
    | cons b bs =>
      cases l with
      | nil => simp [isPrefixL] at hql
      | cons c cs =>
        simp only [isPrefixL] at hpq hql ⊢
        by_cases hab : a = b
        · subst hab
          rw [if_pos rfl] at hpq
          by_cases hac : a = c
          · subst hac
            rw [if_pos rfl] at hql ⊢
            exact ih bs cs hpq hql
          · rw [if_neg hac] at hql
            exact absurd hql (by simp)
        · rw [if_neg hab] at hpq
          exact absurd hpq (by simp)

theorem containsSub_mono (p q : List Char) (hpq : isPrefixL p q = true) :
    ∀ l, containsSub q l = true → containsSub p l = true := by
  intro l
  induction l with
  | nil =>
    intro h
    simp only [containsSub, decide_eq_true_eq] at h ⊢
    subst h
    cases p with
    | nil => rfl
    | cons a as => simp [isPrefixL] at hpq
  | cons c cs ih =>
    intro h
    simp only [containsSub, Bool.or_eq_true] at h ⊢
    rcases h with h | h
    · exact Or.inl (isPrefixL_trans p q (c :: cs) hpq h)
    · exact Or.inr (ih h)

theorem removeAllFuel_of_not_contains (p : List Char) :
    ∀ (n : Nat) (l : List Char), containsSub p l = false → removeAllFuel p n l = l := by
  intro n
  induction n with
  | zero => intro l _; cases l <;> rfl
  | succ n ih =>
    intro l h
    cases l with
    | nil => rfl
    | cons c cs =>
      simp only [containsSub, Bool.or_eq_false_iff] at h
      simp only [removeAllFuel, h.1, if_neg]
      rw [if_neg (by simp [h.1])]
      rw [ih cs h.2]

theorem removeAll_of_not_contains (p l : List Char) (h : containsSub p l = false) :
    removeAll p l = l :=
  removeAllFuel_of_not_contains p l.length l h

theorem isPrefixL_one_weaken (t : Char) (z : List Char)
    (h : isPrefixL [t, t] z = true) : isPrefixL [t] z = true := by
  cases z with
  | nil => simp [isPrefixL] at h
  | cons d ds =>
    simp only [isPrefixL] at h ⊢
    by_cases htd : t = d
    · rw [if_pos htd]
    · rw [if_neg htd] at h
      exact absurd h (by simp)

theorem removeAllFuel_one_clean (t : Char) (n : Nat) (y : List Char)
    (h : isPrefixL [t] y = false) :
    isPrefixL [t] (removeAllFuel [t, t, t] n y) = false := by
  cases y with
  | nil => cases n <;> simp [removeAllFuel, isPrefixL]
  | cons c cs =>
    cases n with
    | zero => exact h
    | succ n =>
      have htc : ¬ t = c := by
        intro htc
        rw [isPrefixL, if_pos htc, isPrefixL_nil] at h
        cases h
      have hpref : isPrefixL [t, t, t] (c :: cs) = false := by
        rw [isPrefixL, if_neg htc]
      rw [removeAllFuel, hpref]
      simp only [Bool.false_eq_true, if_false]
      rw [isPrefixL, if_neg htc]

theorem removeAllFuel_two_clean (t : Char) :
    ∀ (n : Nat) (x : List Char), isPrefixL [t, t] x = false →
      isPrefixL [t, t] (removeAllFuel [t, t, t] n x) = false := by
  intro n
  induction n with
  | zero => intro x h; cases x with
    | nil => simp [removeAllFuel, isPrefixL]
    | cons c cs => exact h
  | succ n ih =>
    intro x h
    cases x with
    | nil => simp [removeAllFuel, isPrefixL]
    | cons c cs =>
      by_cases hp : isPrefixL [t, t, t] (c :: cs) = true
      · exfalso
        rw [isPrefixL] at hp h
        by_cases htc : t = c
        · rw [if_pos htc] at hp h
          rw [isPrefixL_one_weaken t cs hp] at h
          cases h
        · rw [if_neg htc] at hp
          cases hp
      · rw [removeAllFuel, if_neg hp]
        rw [isPrefixL]
        by_cases htc : t = c
        · rw [if_pos htc]
          rw [isPrefixL, if_pos htc] at h
          exact removeAllFuel_one_clean t n cs h
        · rw [if_neg htc]

theorem removeAllFuel_triple_free (t : Char) :
    ∀ (n : Nat) (s : List Char), s.length ≤ n →
      containsSub [t, t, t] (removeAllFuel [t, t, t] n s) = false := by
  intro n
  induction n with
  | zero =>
    intro s hs
    have : s = [] := List.length_eq_zero.mp (Nat.le_zero.mp hs)
    subst this
    simp [removeAllFuel, containsSub]
  | succ n ih =>
    intro s hs
    cases s with
    | nil => simp [removeAllFuel, containsSub]
    | cons c cs =>
      simp only [List.length_cons, Nat.succ_le_succ_iff] at hs
      by_cases hp : isPrefixL [t, t, t] (c :: cs) = true
      · rw [removeAllFuel, if_pos hp]
        refine ih _ (Nat.le_trans ?_ hs)
        rw [List.length_drop]
        exact Nat.sub_le _ _
      · rw [removeAllFuel, if_neg hp]
        rw [containsSub, Bool.or_eq_false_iff]
        refine ⟨?_, ih cs hs⟩
        rw [isPrefixL]
        by_cases htc : t = c
        · rw [if_pos htc]
          rw [isPrefixL, if_pos htc] at hp
          exact removeAllFuel_two_clean t n cs (Bool.of_not_eq_true hp)
        · rw [if_neg htc]

theorem containsSub_removeAll_fence (t : Char) (s : List Char) :
    containsSub [t, t, t] (removeAll [t, t, t] s) = false :=
  removeAllFuel_triple_free t s.length s (Nat.le_refl _)

theorem containsSub_fence_stripFences (s : String) :
    containsSub fenceMarks (stripFences s).data = false :=
  containsSub_removeAll_fence btChar (removeAll fenceHtmlMarks s.data)

theorem stripFences_of_no_fences (u : String) (h : containsSub fenceMarks u.data = false) :
    stripFences u = u := by
  have hhtml : containsSub fenceHtmlMarks u.data = false := by
    cases hc : containsSub fenceHtmlMarks u.data
    · rfl
    · have := containsSub_mono fenceMarks fenceHtmlMarks (by decide) u.data hc
      rw [h] at this
      cases this
  show (⟨removeAll fenceMarks (removeAll fenceHtmlMarks u.data)⟩ : String) = u
  rw [removeAll_of_not_contains _ _ hhtml, removeAll_of_not_contains _ _ h]

/-- C7: the translator's code-fence cleanup (`translateArticle` in
src/engine/translate.ts, stripping literal fence markers anywhere in the
string) returns every string containing no fence markers unchanged, maps the
fenced example to its unfenced body, and applying it twice gives the same
result as applying it once. -/
theorem c7_fence_cleanup (s u : String) (h : containsSub fenceMarks u.data = false) :
    stripFences u = u
    ∧ stripFences "```html<p>x</p>```" = "<p>x</p>"
    ∧ stripFences (stripFences s) = stripFences s :=
  ⟨stripFences_of_no_fences u h, by decide,
    stripFences_of_no_fences (stripFences s) (containsSub_fence_stripFences s)⟩

/-- Witness for C7, at `u = "hello"` (no fences) and `s = "a<tick><tick><tick>b"`. -/
theorem c7_fence_cleanup_witness :
    containsSub fenceMarks ("hello" : String).data = false
    ∧ (stripFences "hello" = "hello"
       ∧ stripFences "```html<p>x</p>```" = "<p>x</p>"
       ∧ stripFences (stripFences "a```b") = stripFences "a```b") :=
  ⟨by decide, c7_fence_cleanup "a```b" "hello" (by decide)⟩

/-! ## Data model (src/types.ts) -/

/-- An article: produced by the scraper, replaced by the translator. -/
structure Article where
  title : String
  content : String
  link : String
deriving DecidableEq, Repr

/-- A configured news source. -/
structure NewsSource where
  type : String
  url : String
  titleSelector : String
  contentSelector : String
  linkSelector : String
  country : String
deriving DecidableEq, Repr

/-- A newsletter subscriber record. -/
structure NewsletterUser where
  email : String
  name : String
  bio : String
  language : String
  countryOfResidence : String
deriving DecidableEq, Repr

/-! ## Article selection (src/scraper.ts, `getMostInterestingArticle`) -/

/-- What `getMostInterestingArticle` builds before returning: `titles[index]`
in JS can be `undefined` when `index` is not a valid array key, so the title
is an `Option`; content is always the empty string at this stage. -/
structure SelectedArticle where
  title : Option String
  content : String
  link : String
deriving DecidableEq, Repr

/-- Model of JS `reply.split(":")[0]`: the segment of the string before the
first colon (the whole string when there is no colon). -/
def splitColonHead (s : String) : String :=
  ⟨s.data.takeWhile (fun c => !(c = ':'))⟩

/-- Decimal digit value of a character, if it is a digit. -/
def charDigit (c : Char) : Option Nat :=
  if '0' ≤ c ∧ c ≤ '9' then some (c.toNat - 48) else none

/-- Parses a run of decimal digits (empty input parses to the accumulator). -/
def parseDigitsAux : List Char → Nat → Option Nat
  | [], acc => some acc
  | c :: cs, acc =>
    match charDigit c with
    | some d => parseDigitsAux cs (acc * 10 + d)
    | none => none

/-- A JS array-index key: the canonical decimal representation of a natural
number (non-empty, digits only, no leading zero except `"0"` itself). -/
def jsArrayKey : List Char → Option Nat
  | [] => none
  | ['0'] => some 0
  | '0' :: _ => none
  | l => parseDigitsAux l 0

/-- Model of JS array indexing `xs[key]` with a string key: an element is
returned exactly when `key` is the canonical decimal representation of an
index in range; otherwise the access yields `undefined` (here `none`). -/
def jsArrayGet (xs : List String) (key : String) : Option String :=
  match jsArrayKey key.data with
  | some n => xs.get? n
  | none => none

/-- The pure tail of `getMostInterestingArticle` (src/scraper.ts:108-130):
`index` is the text before the first colon of the LLM reply, and the result
is `{ title: titles[index], content: "", link: links[index] || "" }` with no
validation of `index` whatsoever. -/
def selectArticle (titles links : List String) (reply : String) : SelectedArticle :=
  let index := splitColonHead reply
  ⟨jsArrayGet titles index, "", (jsArrayGet links index).getD ""⟩

/-- Environment of I/O oracles for one `scrapeSource` call: the listing-page
fetch plus cheerio extraction of the title/link lists, the LLM selection
call, the article-page fetch keyed by URL, and cheerio extraction of the
content text for `contentSelector`. -/
structure ScrapeEnv where
  listing : Except String (List String × List String)
  llmReply : Except String String
  fetchHtml : String → Except String String
  extractContent : String → String

/-- `getMostInterestingArticle` (src/scraper.ts:92-131) over a `ScrapeEnv`:
fetch the listing, ask the LLM, then build the selection purely. It can
fail only by a rejected fetch or LLM call — the reply parse cannot fail. -/
def getMostInterestingArticleE (env : ScrapeEnv) : Except String SelectedArticle := do
  let tl ← env.listing
  let reply ← env.llmReply
  pure (selectArticle tl.1 tl.2 reply)

/-- The absoluteness test of src/scraper.ts:42, the regex
`^http(s?)://` applied to the link. -/
def isAbsoluteUrl (link : String) : Bool :=
  isPrefixL "http://".data link.data || isPrefixL "https://".data link.data

/-- Splits `l` at the first occurrence of `p`, returning the part before and
the part after the occurrence. -/
def splitAtSub (p : List Char) : List Char → Option (List Char × List Char)
  | [] => none
  | c :: cs =>
    if isPrefixL p (c :: cs) then some ([], (c :: cs).drop p.length)
    else
      match splitAtSub p cs with
      | some pr => some (c :: pr.1, pr.2)
      | none => none

/-- Model of the platform WHATWG resolution `new URL(link, base).href` for
the shapes this program exercises: an absolute link is kept; a path-absolute
link (leading slash) is appended to the origin of `base`; any other relative
link is appended to the directory of `base`'s path (an empty relative link
resolves to `base` itself). -/
def resolveUrl (link base : String) : String :=
  if isAbsoluteUrl link then link
  else
    match splitAtSub "://".data base.data with
    | some (scheme, rest) =>
      let host := rest.takeWhile (fun c => !(c = '/'))
      let path := rest.drop host.length
      if isPrefixL ['/'] link.data then
        ⟨scheme ++ "://".data ++ host ++ link.data⟩
      else
        let dir := (path.reverse.dropWhile (fun c => !(c = '/'))).reverse
        let dir' := if dir = [] then ['/'] else dir
        ⟨scheme ++ "://".data ++ host ++ dir' ++ link.data⟩
    | none => link

/-- The `composedLink` computation of `scrapeSource` (src/scraper.ts:39-45):
the selected link is resolved against `source.url` only when it is truthy
(non-empty) and does not already carry an `http`/`https` scheme. -/
def composedLinkOf (sourceUrl link : String) : String :=
  if link ≠ "" ∧ isAbsoluteUrl link = false then resolveUrl link sourceUrl
  else link

/-- The body of `scrapeSource` (src/scraper.ts:33-61), before its
`try`/`catch`: select an article, resolve the link, fetch the article page
at the resolved URL, extract the content, and return an `Article` — built
from the original (unresolved) `link` — only when title, content and
resolved link are all truthy. -/
def scrapeBody (src : NewsSource) (env : ScrapeEnv) : Except String (Option Article) := do
  let sel ← getMostInterestingArticleE env
  let composedLink := composedLinkOf src.url sel.link
  let html ← env.fetchHtml composedLink
  let content := env.extractContent html
  match sel.title with
  | some t =>
    if t ≠ "" ∧ content ≠ "" ∧ composedLink ≠ "" then
      pure (some ⟨t, content, sel.link⟩)
    else
      pure none
  | none => pure none

/-- `scrapeSource` (src/scraper.ts:28-66): the whole body runs inside
`try`/`catch`; any exception is logged and converted to `undefined`
(here `none`), so the operation as a whole cannot raise. -/
def scrapeSourceModel (src : NewsSource) (env : ScrapeEnv) : Option Article :=
  match scrapeBody src env with
  | .ok r => r
  | .error _ => none

/-! ## Claims about selection and scraping -/

/-- Boolean test that an `Except` computation fulfilled (did not reject). -/
def exceptIsOk {ε α : Type} : Except ε α → Bool
  | .ok _ => true
  | .error _ => false

instance {ε α : Type} [DecidableEq ε] [DecidableEq α] :
    DecidableEq (Except ε α) := fun a b =>
  match a, b with
  | .ok x, .ok y =>
    if h : x = y then .isTrue (by rw [h]) else .isFalse (by intro hc; cases hc; exact h rfl)
  | .error x, .error y =>
    if h : x = y then .isTrue (by rw [h]) else .isFalse (by intro hc; cases hc; exact h rfl)
  | .ok _, .error _ => .isFalse (by intro hc; cases hc)
  | .error _, .ok _ => .isFalse (by intro hc; cases hc)

/-- The distinguished parse-error outcome the spec prescribes. -/
inductive SelectionError where
  | SelectionParseError
deriving DecidableEq, Repr

/-- Modelled from the spec: the selection contract of §4.1 — parse the reply
by splitting on the first colon and taking the left segment as the index;
fail with `SelectionParseError` if that segment is not a valid integer
within `[0, titles.length)`; otherwise return the indexed title and link.
This definition follows the spec's words; it is the refinement target
compared against the code's `selectArticle`. -/
def selectMostInterestingSpec (titles links : List String) (reply : String) :
    Except SelectionError SelectedArticle :=
  let left := splitColonHead reply
  match parseDigitsAux left.data 0 with
  | some n =>
    if left ≠ "" ∧ n < titles.length then
      .ok ⟨some (titles.getD n ""), "", (links.get? n).getD ""⟩
    else .error .SelectionParseError
  | none => .error .SelectionParseError

/-- A concrete configured source used by several witnesses. -/
def srcEx : NewsSource :=
  ⟨"webscraper", "https://news.example/", ".title", ".content", ".link", "PA"⟩

theorem selection_invalid_title_none (env : ScrapeEnv)
    (titles links : List String) (reply : String)
    (hl : env.listing = .ok (titles, links))
    (hr : env.llmReply = .ok reply)
    (hidx : jsArrayGet titles (splitColonHead reply) = none) :
    getMostInterestingArticleE env
      = .ok ⟨none, "", (jsArrayGet links (splitColonHead reply)).getD ""⟩ := by
  simp only [getMostInterestingArticleE, hl, hr, Bind.bind, Except.bind,
    Pure.pure, Except.pure, selectArticle]
  rw [hidx]

theorem scrape_absent_of_invalid_index (src : NewsSource) (env : ScrapeEnv)
    (titles links : List String) (reply : String)
    (hl : env.listing = .ok (titles, links))
    (hr : env.llmReply = .ok reply)
    (hidx : jsArrayGet titles (splitColonHead reply) = none) :
    scrapeSourceModel src env = none := by
  have hsel := selection_invalid_title_none env titles links reply hl hr hidx
  cases hf : env.fetchHtml
      (composedLinkOf src.url ((jsArrayGet links (splitColonHead reply)).getD "")) with
  | ok h =>
    simp [scrapeSourceModel, scrapeBody, hsel, hf, Bind.bind, Except.bind,
      Pure.pure, Except.pure]
  | error e =>
    simp [scrapeSourceModel, scrapeBody, hsel, hf, Bind.bind, Except.bind,
      Pure.pure, Except.pure]

/-- Concrete environment for the C3 scenario: three titles, a reply whose
left segment is the non-numeric `x`. -/
def envC3 : ScrapeEnv :=
  ⟨.ok (["A", "B", "C"], ["l0", "l1", "l2"]), .ok "x:Y",
    fun _ => .ok "", fun _ => ""⟩

/-- C3 counterexample: on reply `"x:Y"` (left segment not a valid integer)
the code's selection does not fail — `getMostInterestingArticle` fulfills
with a result (title `undefined`, link defaulted to `""`), while the spec's
contract demands a `SelectionParseError` failure; consequently the claim as
stated — that every invalid left segment makes the selection fail rather
than return a result — is false. -/
theorem c3_counterexample :
    (getMostInterestingArticleE envC3 = .ok ⟨none, "", ""⟩
      ∧ exceptIsOk (getMostInterestingArticleE envC3) = true
      ∧ selectMostInterestingSpec ["A", "B", "C"] ["l0", "l1", "l2"] "x:Y"
          = .error .SelectionParseError)
    ∧ ¬ (∀ (env : ScrapeEnv) (titles links : List String) (reply : String),
          env.listing = .ok (titles, links) → env.llmReply = .ok reply →
          jsArrayGet titles (splitColonHead reply) = none →
          exceptIsOk (getMostInterestingArticleE env) = false) := by
  refine ⟨⟨by decide, by decide, by decide⟩, ?_⟩
  intro hall
  have hfalse := hall envC3 ["A", "B", "C"] ["l0", "l1", "l2"] "x:Y" rfl rfl (by decide)
  have htrue : exceptIsOk (getMostInterestingArticleE envC3) = true := by decide
  rw [htrue] at hfalse
  cases hfalse

/-- C3 (amended): `getMostInterestingArticle` parses the reply by splitting
on the first colon and taking the left segment as the index, but performs no
integer or range validation: for every reply whose left segment is not a
valid index into `titles`, the selection still fulfills normally — there is
no `SelectionParseError` — returning a result whose title is `undefined`
(absent) and whose link is `links[index] || ""`; the invalid index surfaces
only downstream: every `scrapeSource` built on this selection yields an
absent result. -/
theorem c3_selection_parse (env : ScrapeEnv)
    (titles links : List String) (reply : String)
    (hl : env.listing = .ok (titles, links))
    (hr : env.llmReply = .ok reply)
    (hidx : jsArrayGet titles (splitColonHead reply) = none) :
    exceptIsOk (getMostInterestingArticleE env) = true
    ∧ getMostInterestingArticleE env
        = .ok ⟨none, "", (jsArrayGet links (splitColonHead reply)).getD ""⟩
    ∧ ∀ src : NewsSource, scrapeSourceModel src env = none :=
  ⟨by rw [selection_invalid_title_none env titles links reply hl hr hidx]; rfl,
   selection_invalid_title_none env titles links reply hl hr hidx,
   fun src => scrape_absent_of_invalid_index src env titles links reply hl hr hidx⟩

/-- Witness for C3 (amended) at the concrete environment `envC3`. -/
theorem c3_selection_parse_witness :
    (envC3.listing = .ok (["A", "B", "C"], ["l0", "l1", "l2"])
      ∧ envC3.llmReply = .ok "x:Y"
      ∧ jsArrayGet ["A", "B", "C"] (splitColonHead "x:Y") = none)
    ∧ (exceptIsOk (getMostInterestingArticleE envC3) = true
       ∧ getMostInterestingArticleE envC3
           = .ok ⟨none, "", (jsArrayGet ["l0", "l1", "l2"] (splitColonHead "x:Y")).getD ""⟩
       ∧ ∀ src : NewsSource, scrapeSourceModel src envC3 = none)
    ∧ scrapeSourceModel srcEx envC3 = none :=
  ⟨⟨rfl, rfl, by decide⟩,
   c3_selection_parse envC3 ["A", "B", "C"] ["l0", "l1", "l2"] "x:Y" rfl rfl (by decide),
   by decide⟩

/-- C4: when the LLM selection reply carries an out-of-range or non-numeric
index for the extracted titles, the single-source scrape terminates normally
with an absent result (`none`) — never an exception — whatever the article
fetch and content extraction do. -/
theorem c4_invalid_index_absent (src : NewsSource) (env : ScrapeEnv)
    (titles links : List String) (reply : String)
    (hl : env.listing = .ok (titles, links))
    (hr : env.llmReply = .ok reply)
    (hidx : jsArrayGet titles (splitColonHead reply) = none) :
    scrapeSourceModel src env = none :=
  scrape_absent_of_invalid_index src env titles links reply hl hr hidx

/-- Concrete environment for the C4 scenario: titles `A B C`, reply `5:X`
(index out of range), with a fetch and extraction that would succeed. -/
def envC4 : ScrapeEnv :=
  ⟨.ok (["A", "B", "C"], ["l0", "l1"]), .ok "5:X",
    fun _ => .ok "<html>", fun _ => "body text"⟩

/-- Witness for C4: titles `["A","B","C"]` with reply `"5:X"` give an absent
result, not a crash. -/
theorem c4_invalid_index_absent_witness :
    (envC4.listing = .ok (["A", "B", "C"], ["l0", "l1"])
      ∧ envC4.llmReply = .ok "5:X"
      ∧ jsArrayGet ["A", "B", "C"] (splitColonHead "5:X") = none)
    ∧ scrapeSourceModel srcEx envC4 = none :=
  ⟨⟨rfl, rfl, by decide⟩,
   c4_invalid_index_absent srcEx envC4 ["A", "B", "C"] ["l0", "l1"] "5:X"
     rfl rfl (by decide)⟩

/-- C8 counterexample: the empty string is a possible selected link
(`links[index] || ""` when the href is missing) and has no `http`/`https`
scheme, yet `scrapeSource` does not resolve it against `source.url`: the
guard `if (link && ...)` skips falsy links, so the URL actually fetched is
`""`, while WHATWG resolution of `""` against the base yields the base
itself. -/
theorem c8_counterexample :
    (isAbsoluteUrl "" = false
      ∧ composedLinkOf "https://news.example/" "" = ""
      ∧ resolveUrl "" "https://news.example/" = "https://news.example/"
      ∧ ¬ composedLinkOf "https://news.example/" ""
          = resolveUrl "" "https://news.example/")
    ∧ ¬ (∀ link : String, isAbsoluteUrl link = false →
          composedLinkOf "https://news.example/" link
            = resolveUrl link "https://news.example/") := by
  refine ⟨⟨by decide, by decide, by decide, by decide⟩, ?_⟩
  intro hall
  have h := hall "" (by decide)
  exact absurd h (by decide)

/-- C8 (amended): for every selected link that is non-empty and not an
absolute URL (no `http://`/`https://` scheme), `scrapeSource` resolves it
against `source.url` before fetching: `composedLink` is the resolution of
the link against the source URL, and the article-content fetch of the
scrape body is issued exactly at that resolved URL (for every environment
whose selection yields this link); in particular with
`source.url = "https://news.example/"` and link `"/a/b"` the URL used for
the article fetch is `"https://news.example/a/b"`.  (The empty link is the
one non-absolute link that is not resolved — see the counterexample.) -/
theorem c8_relative_link_resolution (src : NewsSource) (link : String)
    (hne : link ≠ "") (habs : isAbsoluteUrl link = false) :
    composedLinkOf src.url link = resolveUrl link src.url
    ∧ (∀ (env : ScrapeEnv) (titles links : List String) (reply : String),
        env.listing = .ok (titles, links) → env.llmReply = .ok reply →
        (selectArticle titles links reply).link = link →
        scrapeBody src env
          = Except.bind (env.fetchHtml (resolveUrl link src.url))
              (fun html =>
                match (selectArticle titles links reply).title with
                | some t =>
                  if t ≠ "" ∧ env.extractContent html ≠ ""
                      ∧ resolveUrl link src.url ≠ "" then
                    Except.ok (some ⟨t, env.extractContent html, link⟩)
                  else Except.ok none
                | none => Except.ok none))
    ∧ composedLinkOf "https://news.example/" "/a/b" = "https://news.example/a/b" := by
  have hcomp : composedLinkOf src.url link = resolveUrl link src.url := by
    rw [composedLinkOf, if_pos ⟨hne, habs⟩]
  refine ⟨hcomp, ?_, by decide⟩
  intro env titles links reply hl hr hsel
  simp only [scrapeBody, getMostInterestingArticleE, hl, hr, Bind.bind,
    Except.bind, Pure.pure, Except.pure]
  rw [hsel, hcomp]

/-- Concrete environment for the C8 witness: the selection picks the
relative link `/a/b`, and the page fetch succeeds only at the resolved
absolute URL. -/
def envC8 : ScrapeEnv :=
  ⟨.ok (["A"], ["/a/b"]), .ok "0:A",
    fun u => if u = "https://news.example/a/b" then .ok "HTML" else .error "wrong url",
    fun h => if h = "HTML" then "body text" else ""⟩

/-- Witness for C8 (amended) at `src = srcEx` and `link = "/a/b"`, with the
fetch-at-resolved-URL conjunct also evaluated on the concrete `envC8`
(whose selection picks `/a/b`). -/
theorem c8_relative_link_resolution_witness :
    (("/a/b" : String) ≠ "" ∧ isAbsoluteUrl "/a/b" = false)
    ∧ (composedLinkOf srcEx.url "/a/b" = resolveUrl "/a/b" srcEx.url
       ∧ (∀ (env : ScrapeEnv) (titles links : List String) (reply : String),
           env.listing = .ok (titles, links) → env.llmReply = .ok reply →
           (selectArticle titles links reply).link = "/a/b" →
           scrapeBody srcEx env
             = Except.bind (env.fetchHtml (resolveUrl "/a/b" srcEx.url))
                 (fun html =>
                   match (selectArticle titles links reply).title with
                   | some t =>
                     if t ≠ "" ∧ env.extractContent html ≠ ""
                         ∧ resolveUrl "/a/b" srcEx.url ≠ "" then
                       Except.ok (some ⟨t, env.extractContent html, "/a/b"⟩)
                     else Except.ok none
                   | none => Except.ok none))
       ∧ composedLinkOf "https://news.example/" "/a/b" = "https://news.example/a/b")
    ∧ resolveUrl "/a/b" srcEx.url = "https://news.example/a/b"
    ∧ scrapeBody srcEx envC8 = .ok (some ⟨"A", "body text", "/a/b"⟩) :=
  ⟨⟨by decide, by decide⟩,
   c8_relative_link_resolution srcEx "/a/b" (by decide) (by decide),
   by decide, by decide⟩

/-- C10: a successful `scrapeSource` returns an `Article` whose `link` field
is the original link string selected from the listing page — not the
resolved `composedLink` — even though the content fetch (and the final
non-emptiness check) used the resolved URL: the article's content is the
extraction of the page fetched at `composedLinkOf src.url sel.link`. -/
theorem c10_link_stays_original (src : NewsSource) (env : ScrapeEnv)
    (titles links : List String) (reply html : String) (art : Article)
    (hl : env.listing = .ok (titles, links))
    (hr : env.llmReply = .ok reply)
    (hh : env.fetchHtml
        (composedLinkOf src.url (selectArticle titles links reply).link) = .ok html)
    (hok : scrapeSourceModel src env = some art) :
    art.link = (selectArticle titles links reply).link
    ∧ (selectArticle titles links reply).title = some art.title
    ∧ art.content = env.extractContent html := by
  cases ht : (selectArticle titles links reply).title with
  | none =>
    simp only [scrapeSourceModel, scrapeBody, getMostInterestingArticleE, hl, hr,
      hh, ht, Bind.bind, Except.bind, Pure.pure, Except.pure] at hok
    cases hok
  | some t =>
    simp only [scrapeSourceModel, scrapeBody, getMostInterestingArticleE, hl, hr,
      hh, ht, Bind.bind, Except.bind, Pure.pure, Except.pure] at hok
    by_cases hc : t ≠ "" ∧ env.extractContent html ≠ ""
        ∧ composedLinkOf src.url (selectArticle titles links reply).link ≠ ""
    · rw [if_pos hc] at hok
      cases hok
      exact ⟨rfl, rfl, rfl⟩
    · rw [if_neg hc] at hok
      cases hok

/-- Concrete environment for C10: one title, relative link `/a/b`; the page
fetch succeeds only at the resolved absolute URL. -/
def envC10 : ScrapeEnv :=
  ⟨.ok (["A"], ["/a/b"]), .ok "0:A",
    fun u => if u = "https://news.example/a/b" then .ok "HTML" else .error "wrong url",
    fun h => if h = "HTML" then "body text" else ""⟩

/-- Witness for C10: with base `https://news.example/` and selected link
`/a/b`, the successful article keeps the relative link `/a/b` while its
content comes from the page fetched at `https://news.example/a/b`. -/
theorem c10_link_stays_original_witness :
    (envC10.listing = .ok (["A"], ["/a/b"])
      ∧ envC10.llmReply = .ok "0:A"
      ∧ envC10.fetchHtml
          (composedLinkOf srcEx.url (selectArticle ["A"] ["/a/b"] "0:A").link) = .ok "HTML"
      ∧ scrapeSourceModel srcEx envC10 = some ⟨"A", "body text", "/a/b"⟩
      ∧ composedLinkOf srcEx.url "/a/b" = "https://news.example/a/b")
    ∧ ((⟨"A", "body text", "/a/b"⟩ : Article).link = (selectArticle ["A"] ["/a/b"] "0:A").link
       ∧ (selectArticle ["A"] ["/a/b"] "0:A").title
           = some (⟨"A", "body text", "/a/b"⟩ : Article).title
       ∧ (⟨"A", "body text", "/a/b"⟩ : Article).content = envC10.extractContent "HTML") :=
  ⟨⟨rfl, rfl, by decide, by decide, by decide⟩,
   c10_link_stays_original srcEx envC10 ["A"] ["/a/b"] "0:A" "HTML"
     ⟨"A", "body text", "/a/b"⟩ rfl rfl (by decide) (by decide)⟩

/-! ## Translation (src/engine/translate.ts) -/

/-- The pipeline configuration slice the engine threads around
(src/types.ts `Config`, restricted to the fields the core reads). -/
structure Config where
  newsSources : List NewsSource
  openAiApiKey : String

/-- The content-translation prompt of `translateArticle` (abbreviated text;
only its dependence on the article and target language matters here). -/
def contentPrompt (article : Article) (language : String) : String :=
  "Translate the following article into " ++ language ++ ": " ++ article.title
    ++ " / " ++ article.content

/-- The title-translation prompt of `translateArticle` (abbreviated text). -/
def titlePrompt (article : Article) (language : String) : String :=
  "Provide only the translation of the following sentence to " ++ language
    ++ ": " ++ article.title

/-- `translateArticle` (src/engine/translate.ts:27-67) over an LLM oracle:
throw if no API key is configured; otherwise one LLM call for the content,
one for the title; return the article with content replaced by the cleaned
reply (code fences stripped) and title replaced; `link` is carried over. -/
def translateArticleM (cfg : Config) (llm : String → Except String String)
    (article : Article) (language : String) : Except String Article :=
  if cfg.openAiApiKey = "" then .error "OpenAI API key is missing"
  else do
    let content ← llm (contentPrompt article language)
    let title ← llm (titlePrompt article language)
    pure { article with content := stripFences content, title := title }

/-- `translateArticles` (src/engine/translate.ts:88-95): `Promise.all` over
the per-article translations — it fulfills with the full list exactly when
every per-article translation fulfills, and rejects as soon as any one
rejects. -/
def translateArticlesM (cfg : Config) (llm : String → Except String String)
    (articles : List Article) (language : String) : Except String (List Article) :=
  match articles with
  | [] => .ok []
  | a :: rest => do
    let ta ← translateArticleM cfg llm a language
    let trest ← translateArticlesM cfg llm rest language
    pure (ta :: trest)

/-- C9: `translateArticles` runs the per-article translations under
`Promise.all`, so if any single article's translation rejects, the whole
batch call rejects and no translated list is returned — whole-batch
failure, not per-article isolation. -/
theorem c9_batch_translation_failure (cfg : Config)
    (llm : String → Except String String) (articles : List Article)
    (language : String) (a : Article) (e : String)
    (ha : a ∈ articles)
    (he : translateArticleM cfg llm a language = .error e) :
    ∃ e', translateArticlesM cfg llm articles language = .error e' := by
  induction articles with
  | nil => cases ha
  | cons b rest ih =>
    cases ha with
    | head =>
      refine ⟨e, ?_⟩
      simp only [translateArticlesM, he, Bind.bind, Except.bind]
    | tail _ hmem =>
      obtain ⟨e', he'⟩ := ih hmem
      cases hb : translateArticleM cfg llm b language with
      | error eb =>
        exact ⟨eb, by simp only [translateArticlesM, hb, Bind.bind, Except.bind]⟩
      | ok tb =>
        refine ⟨e', ?_⟩
        simp only [translateArticlesM, hb, he', Bind.bind, Except.bind]

/-- A concrete article and a concrete LLM oracle that rejects on the
content prompt of the second article. -/
def artJ1 : Article := ⟨"T1", "C1", "L1"⟩

def artJ2 : Article := ⟨"T2", "C2", "L2"⟩

def llmC9 : String → Except String String :=
  fun p => if p = contentPrompt artJ2 "es" then .error "model overloaded" else .ok "out"

/-- Witness for C9: with two articles where the second one's translation
rejects, the whole batch rejects. -/
theorem c9_batch_translation_failure_witness :
    (artJ2 ∈ [artJ1, artJ2]
      ∧ translateArticleM ⟨[], "key"⟩ llmC9 artJ2 "es" = .error "model overloaded")
    ∧ ∃ e', translateArticlesM ⟨[], "key"⟩ llmC9 [artJ1, artJ2] "es" = .error e' :=
  ⟨⟨by decide, by decide⟩,
   c9_batch_translation_failure ⟨[], "key"⟩ llmC9 [artJ1, artJ2] "es" artJ2
     "model overloaded" (by decide) (by decide)⟩

/-! ## Email dispatch (src/engine/generateEmailContent.ts) -/

/-- Structured log entries recording the observable logging events the
claims speak about (the code logs free-form strings via console helpers). -/
inductive LogEntry where
  | info (msg : String)
  | errorMsg (msg : String)
  | groupFailure (country language : String)
  | sendFailure (recipient : String)
  | sentOk (recipient : String)
deriving DecidableEq, Repr

/-- A dynamically typed JS value, as far as the dispatcher's runtime
validation distinguishes them. -/
inductive JsVal where
  | str (s : String)
  | num (n : Int)
  | undef
deriving DecidableEq, Repr

/-- Whether a value is a string (JS `typeof v === "string"`). -/
def JsVal.isStr : JsVal → Bool
  | .str _ => true
  | _ => false

/-- The underlying string of a string value (only read after validation). -/
def JsVal.asStr : JsVal → String
  | .str s => s
  | _ => ""

/-- Model of JS `sub.includes("@")`. -/
def hasAtSign (s : String) : Bool := s.data.contains '@'

/-- The per-element subscriber validation of `sendEmails`
(src/engine/generateEmailContent.ts:115-123): a string containing `@`. -/
def validSubscriberV : JsVal → Bool
  | .str s => hasAtSign s
  | _ => false

/-- `subscribers` is an array of valid email strings. -/
def validSubscribersV (l : List JsVal) : Bool := l.all validSubscriberV

/-- An article element as the dispatcher's validation sees it (`none`
models a null/undefined element). -/
structure JsArticleV where
  titleV : JsVal
  contentV : JsVal
deriving DecidableEq, Repr

/-- The per-element article validation of `sendEmails`
(src/engine/generateEmailContent.ts:125-138): a non-null object whose
`title` and `content` are strings. -/
def validArticleV : Option JsArticleV → Bool
  | none => false
  | some a => a.titleV.isStr && a.contentV.isStr

/-- `articles` is an array of valid article objects. -/
def validArticlesV (l : List (Option JsArticleV)) : Bool := l.all validArticleV

/-- Whitespace for the JS `trim` model (the characters that can occur in
this program's strings). -/
def isJsSpace (c : Char) : Bool :=
  c = ' ' || c = '\t' || c = '\n' || c = '\r'

/-- Model of JS `value.trim()`. -/
def jsTrim (s : String) : String :=
  ⟨((s.data.dropWhile isJsSpace).reverse.dropWhile isJsSpace).reverse⟩

/-- The check performed by the helper `validateEmailString` (definition in
src/email_sender.ts:14-18, imported by src/engine/generateEmailContent.ts):
the value passes when it is a string that is non-empty after trimming;
otherwise the helper throws. -/
def validEmailStringB (s : String) : Bool := !(jsTrim s = "")

/-- The validated mail settings (src/types.ts `MailConfigPack`, minus the
live transporter handle, which lives in the send oracle). -/
structure MailConfigPack where
  host : String
  authUser : String
  authPass : String
  port : Nat
  senderName : String
  newsletterSubject : String
deriving DecidableEq, Repr

/-- `sendEmail` (src/engine/generateEmailContent.ts:50-79) over a send
oracle: validate recipient, subject and content (a failing validation
throws, before any send); then call `transporter.sendMail` inside its own
`try`/`catch`, logging success or failure — a rejected send is caught here
and never propagates.  The first component of the result records the
recipients for which `sendMail` was actually invoked. -/
def sendEmailModel (recipient subject content : String)
    (send : String → Except String Unit) :
    Except String (List String × List LogEntry) :=
  if validEmailStringB recipient && validEmailStringB subject
      && validEmailStringB content then
    match send recipient with
    | .ok _ => .ok ([recipient], [.sentOk recipient])
    | .error _ => .ok ([recipient], [.sendFailure recipient])
  else .error "Invalid email string"

/-- One subscriber's task inside `sendEmails`
(src/engine/generateEmailContent.ts:142-157): generate the personalized
content (a rejected generation is not caught, so it rejects the task), then
run `sendEmail` inside `try`/`catch` — anything it throws is caught and
logged, so the task fulfills. -/
def emailTaskModel (gen : String → Except String String)
    (send : String → Except String Unit) (subject : String)
    (subscriber : String) : Except String (List String × List LogEntry) :=
  match gen subscriber with
  | .error e => .error e
  | .ok content =>
    match sendEmailModel subscriber subject content send with
    | .ok r => .ok r
    | .error _ => .ok ([], [.sendFailure subscriber])

/-- The recipients a settled task attempted. -/
def taskAttempts (r : Except String (List String × List LogEntry)) : List String :=
  match r with
  | .ok p => p.1
  | .error _ => []

/-- The log entries a settled task produced. -/
def taskLogs (r : Except String (List String × List LogEntry)) : List LogEntry :=
  match r with
  | .ok p => p.2
  | .error _ => []

/-- Result of a `sendEmails` call: whether the returned promise fulfilled,
which recipients had a send attempted, and the log. -/
structure DispatchResult where
  result : Except String Unit
  attempts : List String
  logs : List LogEntry
deriving DecidableEq, Repr

/-- `sendEmails` (src/engine/generateEmailContent.ts:104-161): validate the
`subscribers` and `articles` arrays — on violation log an error and return
without sending anything; otherwise start one task per subscriber and
`Promise.all` them.  Every task runs to completion regardless of its
siblings (the promises are all started before the join); the overall
promise fulfills exactly when every task does. -/
def sendEmailsModel (subscribersV : List JsVal)
    (articlesV : List (Option JsArticleV)) (pack : MailConfigPack)
    (gen : String → Except String String)
    (send : String → Except String Unit) : DispatchResult :=
  if validSubscribersV subscribersV = false then
    ⟨.ok (), [], [.errorMsg "Invalid subscribers array"]⟩
  else if validArticlesV articlesV = false then
    ⟨.ok (), [], [.errorMsg "Invalid articles array"]⟩
  else
    let results := (subscribersV.map JsVal.asStr).map
      (emailTaskModel gen send pack.newsletterSubject)
    if results.all exceptIsOk then
      ⟨.ok (), (results.map taskAttempts).flatten,
        (results.map taskLogs).flatten
          ++ [.info "Finished sending translated articles to subscribers."]⟩
    else
      ⟨.error "a subscriber task rejected", (results.map taskAttempts).flatten,
        (results.map taskLogs).flatten⟩

/-! ### Lemmas about the dispatcher -/

theorem mem_dropWhile_of_mem (p : Char → Bool) (l : List Char) (c : Char)
    (hc : c ∈ l) (hpc : p c = false) : c ∈ l.dropWhile p := by
  induction l with
  | nil => cases hc
  | cons d ds ih =>
    rw [List.dropWhile]
    cases hd : p d with
    | true =>
      cases hc with
      | head => rw [hd] at hpc; cases hpc
      | tail _ hmem => exact ih hmem
    | false => exact hc

theorem validEmailStringB_of_hasAtSign (s : String) (h : hasAtSign s = true) :
    validEmailStringB s = true := by
  have h1 : '@' ∈ s.data := by
    simpa [hasAtSign] using h
  have h2 : isJsSpace '@' = false := by decide
  have h3 : '@' ∈ s.data.dropWhile isJsSpace := mem_dropWhile_of_mem _ _ _ h1 h2
  have h4 : '@' ∈ (s.data.dropWhile isJsSpace).reverse.dropWhile isJsSpace :=
    mem_dropWhile_of_mem _ _ _ (List.mem_reverse.mpr h3) h2
  have h5 : jsTrim s ≠ "" := by
    intro heq
    have hdata : ((s.data.dropWhile isJsSpace).reverse.dropWhile isJsSpace).reverse
        = ([] : List Char) := congrArg String.data heq
    rw [List.reverse_eq_nil_iff.mp hdata] at h4
    cases h4
  simp [validEmailStringB, h5]

theorem emailTask_settles (gen : String → Except String String)
    (send : String → Except String Unit) (subject s : String)
    (hat : hasAtSign s = true)
    (hsubj : validEmailStringB subject = true)
    (c : String) (hc : gen s = .ok c) (hvc : validEmailStringB c = true) :
    emailTaskModel gen send subject s
      = .ok ([s],
          [match send s with
           | .ok _ => LogEntry.sentOk s
           | .error _ => LogEntry.sendFailure s]) := by
  cases hs : send s with
  | ok u =>
    simp [emailTaskModel, hc, sendEmailModel,
      validEmailStringB_of_hasAtSign s hat, hsubj, hvc, hs]
  | error e =>
    simp [emailTaskModel, hc, sendEmailModel,
      validEmailStringB_of_hasAtSign s hat, hsubj, hvc, hs]

theorem dispatch_core (gen : String → Except String String)
    (send : String → Except String Unit) (subject : String) :
    ∀ subs : List String,
    (∀ s ∈ subs, hasAtSign s = true) →
    validEmailStringB subject = true →
    (∀ s ∈ subs, ∃ c, gen s = .ok c ∧ validEmailStringB c = true) →
    (((subs.map (emailTaskModel gen send subject)).map taskAttempts).flatten = subs
     ∧ (subs.map (emailTaskModel gen send subject)).all exceptIsOk = true
     ∧ ∀ s ∈ subs, ∀ e, send s = .error e →
         LogEntry.sendFailure s
           ∈ ((subs.map (emailTaskModel gen send subject)).map taskLogs).flatten) := by
  intro subs
  induction subs with
  | nil =>
    intro _ _ _
    refine ⟨rfl, rfl, ?_⟩
    intro s hs
    cases hs
  | cons a rest ih =>
    intro hsubs hsubj hgen
    obtain ⟨c, hc, hvc⟩ := hgen a (List.mem_cons_self a rest)
    have hta := emailTask_settles gen send subject a
      (hsubs a (List.mem_cons_self a rest)) hsubj c hc hvc
    obtain ⟨ih1, ih2, ih3⟩ := ih
      (fun s hs => hsubs s (List.mem_cons_of_mem a hs)) hsubj
      (fun s hs => hgen s (List.mem_cons_of_mem a hs))
    refine ⟨?_, ?_, ?_⟩
    · simp only [List.map_cons, hta, List.flatten_cons, taskAttempts]
      rw [ih1]
      rfl
    · simp only [List.map_cons, List.all_cons, hta, ih2, exceptIsOk,
        Bool.and_true]
    · intro s hs e hse
      cases hs with
      | head =>
        simp only [List.map_cons, hta, List.flatten_cons, taskLogs, hse]
        exact List.mem_append_left _ (List.mem_singleton.mpr rfl)
      | tail _ hmem =>
        simp only [List.map_cons, hta, List.flatten_cons, taskLogs]
        exact List.mem_append_right _ (ih3 s hmem e hse)

/-- C2: when each per-subscriber content generation fulfills with valid
content, `sendEmails` attempts a send for every subscriber — individual
send rejections are caught inside `sendEmail` and logged, never stopping
the other sends — and the overall call fulfills (returning only once every
per-subscriber task has settled, all of which do). -/
theorem c2_send_failure_isolation (subs : List String)
    (articlesV : List (Option JsArticleV)) (pack : MailConfigPack)
    (gen : String → Except String String) (send : String → Except String Unit)
    (hsubs : ∀ s ∈ subs, hasAtSign s = true)
    (harts : validArticlesV articlesV = true)
    (hsubj : validEmailStringB pack.newsletterSubject = true)
    (hgen : ∀ s ∈ subs, ∃ c, gen s = .ok c ∧ validEmailStringB c = true) :
    (sendEmailsModel (subs.map JsVal.str) articlesV pack gen send).result = .ok ()
    ∧ (sendEmailsModel (subs.map JsVal.str) articlesV pack gen send).attempts = subs
    ∧ ∀ s ∈ subs, ∀ e, send s = .error e →
        LogEntry.sendFailure s
          ∈ (sendEmailsModel (subs.map JsVal.str) articlesV pack gen send).logs := by
  have hv : validSubscribersV (subs.map JsVal.str) = true := by
    rw [validSubscribersV, List.all_eq_true]
    intro v hv
    obtain ⟨s, hsmem, rfl⟩ := List.mem_map.mp hv
    exact hsubs s hsmem
  have hmapstr : (subs.map JsVal.str).map JsVal.asStr = subs := by
    rw [List.map_map]
    exact List.map_id'' (fun x => rfl) subs
  obtain ⟨h1, h2, h3⟩ :=
    dispatch_core gen send pack.newsletterSubject subs hsubs hsubj hgen
  rw [sendEmailsModel, if_neg (by simp [hv]), if_neg (by simp [harts]), hmapstr]
  rw [if_pos h2]
  refine ⟨rfl, h1, ?_⟩
  intro s hs e hse
  exact List.mem_append_left _ (h3 s hs e hse)

/-- Concrete dispatcher oracles for the C2 witness: three recipients, the
second send rejects. -/
def sendC2 : String → Except String Unit :=
  fun r => if r = "b@x" then .error "smtp down" else .ok ()

def genC2 : String → Except String String :=
  fun _ => .ok "<p>digest</p>"

def packEx : MailConfigPack :=
  ⟨"smtp.example", "noreply@example", "pw", 465, "No Reply", "Translated Articles"⟩

/-- Witness for C2: three recipients where the second send rejects — all
three sends are attempted, the failure is logged, the call fulfills. -/
theorem c2_send_failure_isolation_witness :
    ((∀ s ∈ ["a@x", "b@x", "c@x"], hasAtSign s = true)
      ∧ validArticlesV [some ⟨.str "T", .str "C"⟩] = true
      ∧ validEmailStringB packEx.newsletterSubject = true
      ∧ (∀ s ∈ ["a@x", "b@x", "c@x"],
          ∃ c, genC2 s = .ok c ∧ validEmailStringB c = true))
    ∧ ((sendEmailsModel (["a@x", "b@x", "c@x"].map JsVal.str)
          [some ⟨.str "T", .str "C"⟩] packEx genC2 sendC2).result = .ok ()
       ∧ (sendEmailsModel (["a@x", "b@x", "c@x"].map JsVal.str)
            [some ⟨.str "T", .str "C"⟩] packEx genC2 sendC2).attempts
           = ["a@x", "b@x", "c@x"]
       ∧ ∀ s ∈ ["a@x", "b@x", "c@x"], ∀ e, sendC2 s = .error e →
           LogEntry.sendFailure s
             ∈ (sendEmailsModel (["a@x", "b@x", "c@x"].map JsVal.str)
                 [some ⟨.str "T", .str "C"⟩] packEx genC2 sendC2).logs) :=
  ⟨⟨by decide, by decide, by decide,
    fun s _ => ⟨"<p>digest</p>", rfl, by decide⟩⟩,
   c2_send_failure_isolation ["a@x", "b@x", "c@x"] [some ⟨.str "T", .str "C"⟩]
     packEx genC2 sendC2 (by decide) (by decide) (by decide)
     (fun s _ => ⟨"<p>digest</p>", rfl, by decide⟩)⟩

/-- C6: when the subscribers argument is not a list of strings each
containing `@`, or the articles argument is not a list of objects with
string title and content, `sendEmails` logs an error and returns without
attempting any send — no partial send occurs and the call still fulfills. -/
theorem c6_fail_closed_validation (subscribersV : List JsVal)
    (articlesV : List (Option JsArticleV)) (pack : MailConfigPack)
    (gen : String → Except String String) (send : String → Except String Unit)
    (h : validSubscribersV subscribersV = false ∨ validArticlesV articlesV = false) :
    (sendEmailsModel subscribersV articlesV pack gen send).attempts = []
    ∧ (∃ m, LogEntry.errorMsg m ∈ (sendEmailsModel subscribersV articlesV pack gen send).logs)
    ∧ (sendEmailsModel subscribersV articlesV pack gen send).result = .ok () := by
  cases hv : validSubscribersV subscribersV with
  | false =>
    rw [sendEmailsModel, if_pos hv]
    exact ⟨rfl, ⟨"Invalid subscribers array", List.mem_singleton.mpr rfl⟩, rfl⟩
  | true =>
    have ha : validArticlesV articlesV = false := by
      cases h with
      | inl h' => rw [h'] at hv; cases hv
      | inr h' => exact h'
    rw [sendEmailsModel, if_neg (by simp [hv]), if_pos ha]
    exact ⟨rfl, ⟨"Invalid articles array", List.mem_singleton.mpr rfl⟩, rfl⟩

/-- Witness for C6: a subscriber entry without `@` makes the call return
with no attempts and an error log. -/
theorem c6_fail_closed_validation_witness :
    (validSubscribersV [JsVal.str "not-an-email"] = false
      ∨ validArticlesV [some ⟨.str "T", .str "C"⟩] = false)
    ∧ ((sendEmailsModel [JsVal.str "not-an-email"] [some ⟨.str "T", .str "C"⟩]
          packEx genC2 sendC2).attempts = []
       ∧ (∃ m, LogEntry.errorMsg m
            ∈ (sendEmailsModel [JsVal.str "not-an-email"] [some ⟨.str "T", .str "C"⟩]
                packEx genC2 sendC2).logs)
       ∧ (sendEmailsModel [JsVal.str "not-an-email"] [some ⟨.str "T", .str "C"⟩]
            packEx genC2 sendC2).result = .ok ()) :=
  ⟨Or.inl (by decide),
   c6_fail_closed_validation [JsVal.str "not-an-email"] [some ⟨.str "T", .str "C"⟩]
     packEx genC2 sendC2 (Or.inl (by decide))⟩

/-! ## Subscriber grouping
(src/db/newsletter/getUsersGroupedByLanguageAndCountry.ts) -/

/-- Inner level: language → users, as an insertion-ordered association list
(JS object with non-numeric string keys). -/
abbrev LangGroups := List (String × List NewsletterUser)

/-- Outer level: country → (language → users). -/
abbrev CountryGroups := List (String × LangGroups)

/-- `groupedUsers[country][language] ??= []` followed by `push(user)`:
append the user to the entry for their language, creating the entry at the
end when absent (JS object key insertion order). -/
def pushUserLang (language : String) (u : NewsletterUser) : LangGroups → LangGroups
  | [] => [(language, [u])]
  | (k, us) :: rest =>
    if k = language then (k, us ++ [u]) :: rest
    else (k, us) :: pushUserLang language u rest

/-- `groupedUsers[country] ??= {}` followed by the inner push. -/
def pushUserCountry (u : NewsletterUser) : CountryGroups → CountryGroups
  | [] => [(u.countryOfResidence, [(u.language, [u])])]
  | (k, ls) :: rest =>
    if k = u.countryOfResidence then (k, pushUserLang u.language u ls) :: rest
    else (k, ls) :: pushUserCountry u rest

/-- The `reduce` of getUsersGroupedByLanguageAndCountry.ts:16-22: fold the
fetched users left to right into the two-level grouping, starting from the
empty object. -/
def getUsersGroupedByLanguageAndCountry (users : List NewsletterUser) : CountryGroups :=
  users.foldl (fun gs u => pushUserCountry u gs) []

/-- First-match association lookup (JS object property read). -/
def lookupKey {α : Type} (key : String) : List (String × α) → Option α
  | [] => none
  | (k, v) :: rest => if k = key then some v else lookupKey key rest

/-- The user list of the (country, language) bucket (empty when either
level has no entry). -/
def bucketOf (gs : CountryGroups) (country language : String) : List NewsletterUser :=
  match lookupKey country gs with
  | some ls => (lookupKey language ls).getD []
  | none => []

/-- Number of users in one country's inner grouping. -/
def langCount (ls : LangGroups) : Nat := (ls.map (fun p => p.2.length)).sum

/-- Total number of users across all buckets of a grouping. -/
def totalCount (gs : CountryGroups) : Nat := (gs.map (fun p => langCount p.2)).sum

theorem lookupKey_pushUserLang (language l' : String) (u : NewsletterUser) :
    ∀ ls : LangGroups,
    lookupKey l' (pushUserLang language u ls)
      = if l' = language then some ((lookupKey language ls).getD [] ++ [u])
        else lookupKey l' ls := by
  intro ls
  induction ls with
  | nil =>
    by_cases h : l' = language
    · subst h
      simp [pushUserLang, lookupKey]
    · simp [pushUserLang, lookupKey, h, Ne.symm h]
  | cons p rest ih =>
    obtain ⟨k, us⟩ := p
    by_cases hk : k = language
    · simp only [pushUserLang, if_pos hk]
      by_cases hl : l' = language
      · simp [lookupKey, hk, hl]
      · have hlk : ¬ k = l' := fun hh => hl (hh.symm.trans hk)
        simp [lookupKey, hl, hlk]
    · simp only [pushUserLang, if_neg hk]
      by_cases hkl : k = l'
      · have hl : ¬ l' = language := fun hh => hk (hkl.trans hh)
        simp [lookupKey, hkl, hl]
      · simp only [lookupKey, if_neg hkl]
        rw [ih]
        by_cases hl : l' = language
        · simp [lookupKey, hl, hk]
        · simp [hl]

theorem bucketOf_pushUserCountry (u : NewsletterUser) (c l : String) :
    ∀ gs : CountryGroups,
    bucketOf (pushUserCountry u gs) c l
      = if u.countryOfResidence = c ∧ u.language = l
        then bucketOf gs c l ++ [u] else bucketOf gs c l := by
  intro gs
  induction gs with
  | nil =>
    by_cases hc : u.countryOfResidence = c
    · by_cases hl : u.language = l
      · simp [pushUserCountry, bucketOf, lookupKey, hc, hl]
      · simp [pushUserCountry, bucketOf, lookupKey, hc, hl]
    · simp [pushUserCountry, bucketOf, lookupKey, hc]
  | cons p rest ih =>
    obtain ⟨k, ls⟩ := p
    by_cases hk : k = u.countryOfResidence
    · simp only [pushUserCountry, if_pos hk]
      by_cases hc : k = c
      · have hcc : u.countryOfResidence = c := hk.symm.trans hc
        simp only [bucketOf, lookupKey, if_pos hc]
        rw [lookupKey_pushUserLang]
        by_cases hl : l = u.language
        · have hll : u.language = l := hl.symm
          rw [if_pos hl, if_pos ⟨hcc, hll⟩, hl]
          rfl
        · have hne : ¬ (u.countryOfResidence = c ∧ u.language = l) :=
            fun hh => hl (hh.2.symm)
          rw [if_neg hl, if_neg hne]
      · have hne : ¬ (u.countryOfResidence = c ∧ u.language = l) :=
          fun hh => hc (hk.trans hh.1)
        simp only [bucketOf, lookupKey, if_neg hc, if_neg hne]
    · simp only [pushUserCountry, if_neg hk]
      by_cases hc : k = c
      · have hne : ¬ (u.countryOfResidence = c ∧ u.language = l) :=
          fun hh => hk (hc.trans hh.1.symm)
        simp only [bucketOf, lookupKey, if_pos hc, if_neg hne]
      · simp only [bucketOf, lookupKey, if_neg hc] at ih ⊢
        exact ih

theorem bucketOf_fold (c l : String) :
    ∀ (users : List NewsletterUser) (gs : CountryGroups),
    bucketOf (users.foldl (fun g u => pushUserCountry u g) gs) c l
      = bucketOf gs c l
        ++ users.filter (fun v => v.countryOfResidence = c && v.language = l) := by
  intro users
  induction users with
  | nil => intro gs; simp
  | cons u rest ih =>
    intro gs
    rw [List.foldl_cons, ih, bucketOf_pushUserCountry]
    by_cases hc : u.countryOfResidence = c ∧ u.language = l
    · rw [if_pos hc,
        List.filter_cons_of_pos (by simp [hc.1, hc.2]),
        List.append_assoc]
      rfl
    · rw [if_neg hc, List.filter_cons_of_neg]
      simp only [Bool.and_eq_true, decide_eq_true_eq]
      exact hc

theorem langCount_pushUserLang (language : String) (u : NewsletterUser) :
    ∀ ls : LangGroups, langCount (pushUserLang language u ls) = langCount ls + 1 := by
  intro ls
  induction ls with
  | nil => simp [pushUserLang, langCount]
  | cons p rest ih =>
    obtain ⟨k, us⟩ := p
    by_cases hk : k = language
    · simp [pushUserLang, hk, langCount]
      omega
    · simp only [pushUserLang, if_neg hk, langCount, List.map_cons, List.sum_cons] at ih ⊢
      omega

theorem totalCount_pushUserCountry (u : NewsletterUser) :
    ∀ gs : CountryGroups, totalCount (pushUserCountry u gs) = totalCount gs + 1 := by
  intro gs
  induction gs with
  | nil => simp [pushUserCountry, totalCount, langCount]
  | cons p rest ih =>
    obtain ⟨k, ls⟩ := p
    by_cases hk : k = u.countryOfResidence
    · simp only [pushUserCountry, if_pos hk, totalCount, List.map_cons, List.sum_cons]
      rw [langCount_pushUserLang]
      omega
    · simp only [pushUserCountry, if_neg hk, totalCount, List.map_cons, List.sum_cons] at ih ⊢
      omega

theorem totalCount_fold :
    ∀ (users : List NewsletterUser) (gs : CountryGroups),
    totalCount (users.foldl (fun g u => pushUserCountry u g) gs)
      = totalCount gs + users.length := by
  intro users
  induction users with
  | nil => intro gs; simp
  | cons u rest ih =>
    intro gs
    rw [List.foldl_cons, ih, totalCount_pushUserCountry]
    simp only [List.length_cons]
    omega

/-- C5: `getUsersGroupedByLanguageAndCountry` places each user in exactly
one (country, language) bucket — the one matching the user's own
`countryOfResidence` and `language` fields: every bucket's content is the
input filtered on exactly those two fields, a user belongs to a bucket iff
it is their own, and the total user count summed across all buckets equals
the input count. -/
theorem c5_grouping_invariant (users : List NewsletterUser) (c l : String)
    (u : NewsletterUser) :
    bucketOf (getUsersGroupedByLanguageAndCountry users) c l
      = users.filter (fun v => v.countryOfResidence = c && v.language = l)
    ∧ (u ∈ bucketOf (getUsersGroupedByLanguageAndCountry users) c l
        ↔ (u ∈ users ∧ u.countryOfResidence = c ∧ u.language = l))
    ∧ totalCount (getUsersGroupedByLanguageAndCountry users) = users.length := by
  have hb := bucketOf_fold c l users []
  have ht := totalCount_fold users []
  refine ⟨?_, ?_, ?_⟩
  · simpa [getUsersGroupedByLanguageAndCountry, bucketOf, lookupKey] using hb
  · rw [getUsersGroupedByLanguageAndCountry]
    rw [show bucketOf (users.foldl (fun g u => pushUserCountry u g) []) c l
        = users.filter (fun v => v.countryOfResidence = c && v.language = l) by
      simpa [bucketOf, lookupKey] using hb]
    simp [List.mem_filter, and_assoc]
  · simpa [getUsersGroupedByLanguageAndCountry, totalCount] using ht

/-! ## The orchestrator (`processNewsletter` / `processUserGroup`) -/

/-- ASCII upper-casing of one character. -/
def charUpper (c : Char) : Char :=
  if 'a' ≤ c ∧ c ≤ 'z' then Char.ofNat (c.toNat - 32) else c

/-- Model of JS `s.toUpperCase()` for the ASCII country codes in play. -/
def jsToUpper (s : String) : String := ⟨s.data.map charUpper⟩

/-- Environment of I/O oracles for one group's pipeline: the outcome of
`scrapeAllSources([source], language)` (the empty list also covers an
`undefined` result), of `translateArticles`, and of `sendEmails`.  A
`.error` is a rejection thrown anywhere inside that stage. -/
structure GroupEnv where
  scrape : Except String (List Article)
  translate : List Article → Except String (List Article)
  dispatch : Except String Unit

/-- The source lookup of `processUserGroup`:
`config.newsSources.find(src => src.country.toUpperCase() ===
countryOfResidence.toUpperCase())` — a total, case-insensitive first-match
search over the typed configuration. -/
def findSourceFor (cfg : Config) (country : String) : Option NewsSource :=
  cfg.newsSources.find? (fun src => jsToUpper src.country == jsToUpper country)

/-- The `try` block of `processUserGroup` (scrape, skip when no articles,
translate, build the mail pack, dispatch): any rejection of any stage
escapes to the `catch` boundary. -/
def processGroupBody (env : GroupEnv) (country language : String) :
    Except String (List LogEntry) := do
  let articles ← env.scrape
  if articles.isEmpty then
    pure [.info ("No articles found for source for " ++ country)]
  else do
    let _ ← env.translate articles
    let _ ← env.dispatch
    pure [.info ("Scraped articles for " ++ country),
      .info ("Translated articles to " ++ language),
      .info ("Emails sent in " ++ country)]

/-- `processUserGroup` (processNewsletter source, lines 9-69): return
silently for an empty group; log the group; look up its source (log and
skip when none matches); then run the pipeline body inside `try`/`catch` —
a rejection anywhere in the body is caught at this group boundary and
logged with the group's country and language, and the function always
fulfills (its result type has no error case). -/
def processUserGroupModel (cfg : Config) (country language : String)
    (users : List NewsletterUser) (env : GroupEnv) : List LogEntry :=
  if users.length = 0 then []
  else
    LogEntry.info ("Processing group for " ++ country ++ " - " ++ language) ::
    match findSourceFor cfg country with
    | none => [.info ("No news source configured for " ++ country)]
    | some _ =>
      match processGroupBody env country language with
      | .ok logs => logs
      | .error _ => [.groupFailure country language]

/-- The orchestrator `processNewsletter` (lines 71-95): fetch the grouped
users (the only rejection its top-level `catch` can see, since every group
task fulfills), run every (country, language) group — each group's
contribution depends only on its own environment — then log completion. -/
def runNewsletterModel (cfg : Config) (fetched : Except String CountryGroups)
    (envOf : String → String → GroupEnv) : List LogEntry :=
  LogEntry.info "Starting the newsletter process" ::
  match fetched with
  | .error _ => [.errorMsg "Error in newsletter process"]
  | .ok groups =>
    (groups.map (fun cg =>
      (cg.2.map (fun lg =>
        processUserGroupModel cfg cg.1 lg.1 lg.2 (envOf cg.1 lg.1))).flatten)).flatten
    ++ [.info "Newsletter process completed"]

/-- C1: an exception anywhere in a group's pipeline body is caught at the
group boundary and turned into a log entry carrying that group's country
and language — `processUserGroup` still fulfills — and the orchestrator's
run completes: its log is exactly the independent per-group logs of all
groups (each computed from that group's own environment alone) followed by
the completion entry, so every sibling group's pipeline is executed to
completion regardless of the failing group. -/
theorem c1_group_failure_isolation (cfg : Config) (groups : CountryGroups)
    (envOf : String → String → GroupEnv) (country language : String)
    (users : List NewsletterUser) (src : NewsSource) (e : String)
    (husers : ¬ users.length = 0)
    (hsrc : findSourceFor cfg country = some src)
    (herr : processGroupBody (envOf country language) country language = .error e) :
    processUserGroupModel cfg country language users (envOf country language)
      = [LogEntry.info ("Processing group for " ++ country ++ " - " ++ language),
         LogEntry.groupFailure country language]
    ∧ runNewsletterModel cfg (.ok groups) envOf
        = LogEntry.info "Starting the newsletter process" ::
          (groups.map (fun cg =>
            (cg.2.map (fun lg =>
              processUserGroupModel cfg cg.1 lg.1 lg.2 (envOf cg.1 lg.1))).flatten)).flatten
          ++ [LogEntry.info "Newsletter process completed"] := by
  constructor
  · rw [processUserGroupModel, if_neg husers, hsrc, herr]
  · rfl

/-- A second configured source, for the witness's successful group. -/
def srcCR : NewsSource :=
  ⟨"webscraper", "https://cr.example/", ".t", ".c", ".l", "CR"⟩

/-- The witness configuration: one source for PA, one for CR. -/
def cfgC1 : Config := ⟨[srcEx, srcCR], "key"⟩

def userPA : NewsletterUser := ⟨"u1@x", "N1", "B1", "es", "PA"⟩

def userCR : NewsletterUser := ⟨"u2@x", "N2", "B2", "en", "CR"⟩

/-- Two groups: (PA, es) whose scrape will throw, (CR, en) which succeeds. -/
def groupsC1 : CountryGroups := [("PA", [("es", [userPA])]), ("CR", [("en", [userCR])])]

/-- Per-group environments: the PA scrape rejects; CR works end to end. -/
def envOfC1 : String → String → GroupEnv :=
  fun c _ =>
    if c = "PA" then ⟨.error "scrape boom", fun a => .ok a, .ok ()⟩
    else ⟨.ok [artJ1], fun a => .ok a, .ok ()⟩

/-- Witness for C1: with the PA group's scrape throwing and the CR group
succeeding, the run completes, the PA failure is logged with its country
and language, and the CR group's pipeline runs to completion (its subscribers
get mail — the `Emails sent in CR` entry). -/
theorem c1_group_failure_isolation_witness :
    (¬ ([userPA].length = 0)
      ∧ findSourceFor cfgC1 "PA" = some srcEx
      ∧ processGroupBody (envOfC1 "PA" "es") "PA" "es" = .error "scrape boom")
    ∧ (processUserGroupModel cfgC1 "PA" "es" [userPA] (envOfC1 "PA" "es")
        = [LogEntry.info "Processing group for PA - es",
           LogEntry.groupFailure "PA" "es"]
       ∧ runNewsletterModel cfgC1 (.ok groupsC1) envOfC1
          = LogEntry.info "Starting the newsletter process" ::
            (groupsC1.map (fun cg =>
              (cg.2.map (fun lg =>
                processUserGroupModel cfgC1 cg.1 lg.1 lg.2 (envOfC1 cg.1 lg.1))).flatten)).flatten
            ++ [LogEntry.info "Newsletter process completed"])
    ∧ runNewsletterModel cfgC1 (.ok groupsC1) envOfC1
        = [LogEntry.info "Starting the newsletter process",
           LogEntry.info "Processing group for PA - es",
           LogEntry.groupFailure "PA" "es",
           LogEntry.info "Processing group for CR - en",
           LogEntry.info "Scraped articles for CR",
           LogEntry.info "Translated articles to en",
           LogEntry.info "Emails sent in CR",
           LogEntry.info "Newsletter process completed"] :=
  ⟨⟨by decide, by decide, by decide⟩,
   c1_group_failure_isolation cfgC1 groupsC1 envOfC1 "PA" "es" [userPA] srcEx
     "scrape boom" (by decide) (by decide) (by decide),
   by decide⟩
